import Mathlib

/-!
Verification of the memfd image builder and registry (crates/runtime/src/memfd.rs).

Shallow embedding conventions:
* Machine integers (u32, u64, usize on a 64-bit host) are modelled as Nat with an
  explicit mod 2^64 at the arithmetic operations where the source can overflow
  (release-mode wrapping semantics); checked_add is modelled exactly.
* PrimaryMap / HashSet state built by the first pass of build_memfds is modelled as
  total functions from the defined-memory index; the source indexes panic outside
  the well-formed range, and all theorems below are only used at in-range indices.
* The memfd file is modelled by its content function (byte at each offset).  A fresh
  file sized with set_len reads as zeros, and write_at overlays bytes.  OS-level
  failures of memfd_create / set_len / write_at / add_seal are modelled at the
  get_or_create boundary by an arbitrary Except result of the builder.
* The source records segment indices in segments_per_memory and later re-reads
  segments[i]; since the segment list is unchanged between the two passes we record
  the segment itself, which is observationally identical.
-/

/-- WASM_PAGE_SIZE from wasmtime_environ (u32, 64 KiB). -/
def WASM_PAGE_SIZE : Nat := 65536

/-- const MAX_MEMFD_IMAGE_SIZE: usize = 1024 * 1024 * 1024. -/
def MAX_MEMFD_IMAGE_SIZE : Nat := 1024 * 1024 * 1024

/-- 2^64, the modulus of usize / u64 arithmetic on the 64-bit host. -/
def USIZE_MOD : Nat := 2 ^ 64

/-- A Range(u32) into the raw wasm data blob (start..stop). -/
structure DataRange where
  start : Nat
  stop : Nat
deriving DecidableEq

/-- Range::len(): stop - start, 0 for an empty or reversed range. -/
def DataRange.len (r : DataRange) : Nat := r.stop - r.start

instance : Inhabited DataRange := ⟨⟨0, 0⟩⟩

/-- One memory initializer segment: target memory index (into the full memory index
space), an optional dynamically-computed base (Some global), a constant u64 byte
offset, and the byte range of its data in the raw blob. -/
structure MemoryInitializer where
  memory_index : Nat
  base : Option Nat
  offset : Nat
  data : DataRange
deriving DecidableEq

instance : Inhabited MemoryInitializer := ⟨⟨0, none, 0, default⟩⟩

/-- The slice of a memory plan used by build_memfds: the declared minimum page
count of the memory (u64). -/
structure MemoryPlan where
  minimum : Nat
deriving DecidableEq

instance : Inhabited MemoryPlan := ⟨⟨0⟩⟩

/-- MemoryInitialization: either a flat segment list or a per-defined-memory list of
(page base offset, data range) entries.  The Paged variant's out_of_bounds flag is
not read by build_memfds and is omitted. -/
inductive MemoryInitialization where
  | Segmented (segments : List MemoryInitializer)
  | Paged (map : List (List (Nat × DataRange)))

/-- The slice of wasmtime_environ::Module used by build_memfds. -/
structure WasmModule where
  memory_plans : List MemoryPlan
  num_imported_memories : Nat
  memory_initialization : MemoryInitialization

/-- WasmModule::defined_memory_index: None for imported memories, otherwise the dense
defined-memory index. -/
def WasmModule.defined_memory_index (m : WasmModule) (memory : Nat) : Option Nat :=
  if memory < m.num_imported_memories then none
  else some (memory - m.num_imported_memories)

/-- let num_defined_memories = module.memory_plans.len() - module.num_imported_memories. -/
def numDefined (m : WasmModule) : Nat :=
  m.memory_plans.length - m.num_imported_memories

/-- usize::checked_add on the 64-bit host. -/
def checked_add (a b : Nat) : Option Nat :=
  if a + b < USIZE_MOD then some (a + b) else none

/-- The declared minimum size of the targeted memory in bytes:
(min_pages as usize) * (WASM_PAGE_SIZE as usize), with wrapping semantics. -/
def minSizeBytes (m : WasmModule) (memory : Nat) : Nat :=
  ((m.memory_plans.getD memory default).minimum * WASM_PAGE_SIZE) % USIZE_MOD

/-- State of the first (sizing) pass of build_memfds: the sizes PrimaryMap, the
excluded_memories HashSet, and segments_per_memory, all keyed by defined-memory
index. -/
structure SegState where
  sizes : Nat → Nat
  excluded : Nat → Bool
  segs : Nat → List MemoryInitializer

/-- All sizes start at 0, no memory excluded, no segments recorded. -/
def initState : SegState :=
  { sizes := fun _ => 0, excluded := fun _ => false, segs := fun _ => [] }

/-- One iteration of the Segmented sizing loop of build_memfds. -/
def processSegment (m : WasmModule) (st : SegState) (seg : MemoryInitializer) : SegState :=
  match m.defined_memory_index seg.memory_index with
  | none => st
  | some dm =>
    if seg.base.isSome then
      { st with excluded := fun d => if d = dm then true else st.excluded d }
    else
      match checked_add seg.offset seg.data.len with
      | none => { st with excluded := fun d => if d = dm then true else st.excluded d }
      | some top =>
        if minSizeBytes m seg.memory_index < top then
          { st with excluded := fun d => if d = dm then true else st.excluded d }
        else if MAX_MEMFD_IMAGE_SIZE < top then
          { st with excluded := fun d => if d = dm then true else st.excluded d }
        else
          { st with
            sizes := fun d => if d = dm then max (st.sizes d) top else st.sizes d,
            segs := fun d => if d = dm then st.segs d ++ [seg] else st.segs d }

/-- max(base + range.len()) over the page entries, or 0 if there are none
(the additions wrap in usize). -/
def pageTop (pages : List (Nat × DataRange)) : Nat :=
  (pages.map (fun p => (p.1 + p.2.len) % USIZE_MOD)).foldr max 0

/-- The sizing pass of build_memfds for either strategy. -/
def buildState (m : WasmModule) : SegState :=
  match m.memory_initialization with
  | .Segmented segments => segments.foldl (processSegment m) initState
  | .Paged map =>
    { sizes := fun d => pageTop (map.getD d [])
      excluded := fun _ => false
      segs := fun _ => [] }

/-- file.write_at(data, base): overlay the blob bytes data.start..data.stop at file
offsets base..base+len; other offsets keep their previous content. -/
def writeAt (c : Nat → Nat) (blob : List Nat) (r : DataRange) (base : Nat) : Nat → Nat :=
  fun a => if base ≤ a ∧ a < base + r.len then blob.getD (r.start + (a - base)) 0 else c a

/-- Apply a list of (base offset, data range) writes in order to a file content. -/
def applyWrites (blob : List Nat) (c : Nat → Nat) (ws : List (Nat × DataRange)) : Nat → Nat :=
  ws.foldl (fun c w => writeAt c blob w.2 w.1) c

/-- The writes performed into one memory's image: the recorded segments at their
constant offsets (Segmented), or the page entries at their bases (Paged). -/
def memWrites (m : WasmModule) (st : SegState) (d : Nat) : List (Nat × DataRange) :=
  match m.memory_initialization with
  | .Segmented _ => (st.segs d).map (fun s => (s.offset, s.data))
  | .Paged map => map.getD d []

/-- The final content of one memory's memfd file: zeros from set_len, then the
recorded writes applied in order. -/
def memContent (m : WasmModule) (blob : List Nat) (st : SegState) (d : Nat) : Nat → Nat :=
  applyWrites blob (fun _ => 0) (memWrites m st d)

/-- size rounded up to the nearest page boundary:
(size + page_size - 1) & !(page_size - 1) in usize arithmetic. -/
def pageAlign (ps size : Nat) : Nat :=
  ((size + ps - 1) % USIZE_MOD) &&& (USIZE_MOD - ps)

/-- One backing image for one memory: its file content and its (page-aligned)
length.  The sealed memfd itself is represented by the content it holds. -/
structure MemoryMemFd where
  content : Nat → Nat
  len : Nat

/-- The per-memory entry produced by the allocation loop of build_memfds:
None for an excluded or zero-size memory, otherwise the written, sealed image. -/
def memEntry (ps : Nat) (m : WasmModule) (blob : List Nat) (st : SegState) (d : Nat) :
    Option MemoryMemFd :=
  if st.excluded d then none
  else if st.sizes d = 0 then none
  else some { content := memContent m blob st d, len := pageAlign ps (st.sizes d) }

/-- The memories PrimaryMap of ModuleMemFds, one Option entry per defined memory. -/
def ModuleMemFds : Type := List (Option MemoryMemFd)

/-- build_memfds(module, wasm_data), parametrised by the host page size. -/
def build_memfds (ps : Nat) (m : WasmModule) (blob : List Nat) : ModuleMemFds :=
  (List.range (numDefined m)).map (memEntry ps m blob (buildState m))

/-- The entry of the built image set at one defined-memory index (the indexing used
by the write loop and by get_memory_image; out of range it is none). -/
def buildAt (ps : Nat) (m : WasmModule) (blob : List Nat) (d : Nat) : Option MemoryMemFd :=
  (build_memfds ps m blob).getD d none

/-- ModuleMemFds::get_memory_image: self.memories(defined_index).  The source
indexing panics out of bounds; the outer none models that panic. -/
def get_memory_image (mems : ModuleMemFds) (i : Nat) : Option (Option MemoryMemFd) :=
  List.get? mems i

/-- The registry map: CompiledModuleId to the stored image set. -/
def MemFdRegistry : Type := Nat → Option ModuleMemFds

/-- MemFdRegistry::get_or_create, sequential form.  The builder outcome (including
an OS failure) is passed in as bres; the second lookup mirrors the second lock
acquisition of the source. -/
def get_or_create (reg : MemFdRegistry) (id : Nat) (bres : Except Unit ModuleMemFds) :
    Except Unit ModuleMemFds × MemFdRegistry :=
  match reg id with
  | some memfds => (.ok memfds, reg)
  | none =>
    match bres with
    | .error e => (.error e, reg)
    | .ok memfds =>
      match reg id with
      | none => (.ok memfds, fun i => if i = id then some memfds else reg i)
      | some o => (.ok o, reg)

/-! ### The per-segment exclusion / recording conditions of the sizing loop -/

/-- The sizing loop excludes memory d at this segment: the segment resolves to
defined memory d and has a dynamic base, or its offset + length overflows usize, or
its end exceeds the declared minimum size in bytes, or its end exceeds the 1 GiB
hard cap. -/
def segExcludes (m : WasmModule) (seg : MemoryInitializer) (d : Nat) : Bool :=
  match m.defined_memory_index seg.memory_index with
  | none => false
  | some dm =>
    decide (d = dm) &&
      (seg.base.isSome ||
        match checked_add seg.offset seg.data.len with
        | none => true
        | some top =>
          decide (minSizeBytes m seg.memory_index < top) ||
            decide (MAX_MEMFD_IMAGE_SIZE < top))

/-- The sizing loop records this segment for memory d: it resolves to defined
memory d, has a constant base, its end does not overflow, and the end is within
both the declared minimum size and the hard cap. -/
def segRecords (m : WasmModule) (seg : MemoryInitializer) (d : Nat) : Bool :=
  match m.defined_memory_index seg.memory_index with
  | none => false
  | some dm =>
    decide (d = dm) && seg.base.isNone &&
      (match checked_add seg.offset seg.data.len with
       | none => false
       | some top =>
         decide (top ≤ minSizeBytes m seg.memory_index) &&
           decide (top ≤ MAX_MEMFD_IMAGE_SIZE))

lemma processSegment_excluded (m : WasmModule) (st : SegState) (seg : MemoryInitializer)
    (d : Nat) :
    (processSegment m st seg).excluded d = (st.excluded d || segExcludes m seg d) := by
  unfold processSegment segExcludes
  cases hdm : m.defined_memory_index seg.memory_index with
  | none => simp
  | some dm =>
    cases hb : seg.base with
    | some g =>
      by_cases hd : d = dm <;> simp [hb, hd]
    | none =>
      cases hc : checked_add seg.offset seg.data.len with
      | none => by_cases hd : d = dm <;> simp [hb, hc, hd]
      | some top =>
        by_cases h1 : minSizeBytes m seg.memory_index < top <;>
          by_cases h2 : MAX_MEMFD_IMAGE_SIZE < top <;>
            by_cases hd : d = dm <;> simp [hb, hc, h1, h2, hd]

lemma processSegment_sizes (m : WasmModule) (st : SegState) (seg : MemoryInitializer)
    (d : Nat) :
    (processSegment m st seg).sizes d =
      if segRecords m seg d then max (st.sizes d) (seg.offset + seg.data.len)
      else st.sizes d := by
  unfold processSegment segRecords checked_add
  cases hdm : m.defined_memory_index seg.memory_index with
  | none => simp
  | some dm =>
    cases hb : seg.base with
    | some g => by_cases hd : d = dm <;> simp [hb, hd]
    | none =>
      by_cases hc : seg.offset + seg.data.len < USIZE_MOD
      · by_cases h1 : minSizeBytes m seg.memory_index < seg.offset + seg.data.len <;>
          by_cases h2 : MAX_MEMFD_IMAGE_SIZE < seg.offset + seg.data.len <;>
            by_cases hd : d = dm <;>
              simp [hb, hc, h1, h2, hd] <;> first | rw [if_pos (by omega)] | rw [if_neg (by omega)]
      · by_cases hd : d = dm <;> simp [hb, hc, hd]

lemma processSegment_segs (m : WasmModule) (st : SegState) (seg : MemoryInitializer)
    (d : Nat) :
    (processSegment m st seg).segs d =
      if segRecords m seg d then st.segs d ++ [seg] else st.segs d := by
  unfold processSegment segRecords checked_add
  cases hdm : m.defined_memory_index seg.memory_index with
  | none => simp
  | some dm =>
    cases hb : seg.base with
    | some g => by_cases hd : d = dm <;> simp [hb, hd]
    | none =>
      by_cases hc : seg.offset + seg.data.len < USIZE_MOD
      · by_cases h1 : minSizeBytes m seg.memory_index < seg.offset + seg.data.len <;>
          by_cases h2 : MAX_MEMFD_IMAGE_SIZE < seg.offset + seg.data.len <;>
            by_cases hd : d = dm <;>
              simp [hb, hc, h1, h2, hd] <;> first | rw [if_pos (by omega)] | rw [if_neg (by omega)]
      · by_cases hd : d = dm <;> simp [hb, hc, hd]

/-! ### Characterization of the whole sizing pass as a fold over the segment list -/

lemma foldl_excluded (m : WasmModule) (l : List MemoryInitializer) (st : SegState) (d : Nat) :
    (l.foldl (processSegment m) st).excluded d =
      (st.excluded d || l.any fun s => segExcludes m s d) := by
  induction l generalizing st with
  | nil => simp
  | cons s l ih =>
    simp [List.foldl_cons, List.any_cons, ih, processSegment_excluded, Bool.or_assoc]

lemma foldl_segs (m : WasmModule) (l : List MemoryInitializer) (st : SegState) (d : Nat) :
    (l.foldl (processSegment m) st).segs d =
      st.segs d ++ (l.filter fun s => segRecords m s d) := by
  induction l generalizing st with
  | nil => simp
  | cons s l ih =>
    rw [List.foldl_cons, ih, processSegment_segs]
    by_cases h : segRecords m s d <;> simp [h, List.filter_cons]

lemma foldl_sizes (m : WasmModule) (l : List MemoryInitializer) (st : SegState) (d : Nat) :
    (l.foldl (processSegment m) st).sizes d =
      (l.filter fun s => segRecords m s d).foldl
        (fun a s => max a (s.offset + s.data.len)) (st.sizes d) := by
  induction l generalizing st with
  | nil => simp
  | cons s l ih =>
    rw [List.foldl_cons, ih]
    by_cases h : segRecords m s d <;> simp [h, List.filter_cons, processSegment_sizes]

/-! ### Small max-fold facts -/

lemma le_foldl_max {α : Type} (l : List α) (f : α → Nat) (a : Nat) :
    a ≤ l.foldl (fun acc s => max acc (f s)) a := by
  induction l generalizing a with
  | nil => simp
  | cons s l ih => exact le_trans (le_max_left _ _) (ih (max a (f s)))

lemma foldl_max_of_mem {α : Type} (l : List α) (f : α → Nat) (s : α) :
    s ∈ l → ∀ a : Nat, f s ≤ l.foldl (fun acc s => max acc (f s)) a := by
  induction l with
  | nil => intro hs; simp at hs
  | cons x l ih =>
    intro hs a
    rcases List.mem_cons.mp hs with h | h
    · subst h
      exact le_trans (le_max_right _ _) (le_foldl_max l f (max a (f s)))
    · exact ih h _

lemma foldl_max_le {α : Type} (l : List α) (f : α → Nat) (c : Nat) :
    ∀ a : Nat, a ≤ c → (∀ s ∈ l, f s ≤ c) →
      l.foldl (fun acc s => max acc (f s)) a ≤ c := by
  induction l with
  | nil => intro a ha _; simpa using ha
  | cons x l ih =>
    intro a ha h
    rw [List.foldl_cons]
    exact ih _ (max_le ha (h x (List.mem_cons_self _ _)))
      fun s hs => h s (List.mem_cons_of_mem _ hs)

lemma lt_foldr_max_iff (l : List Nat) (c : Nat) :
    c < l.foldr max 0 ↔ ∃ x ∈ l, c < x := by
  induction l with
  | nil => simp
  | cons x l ih => simp [List.foldr_cons, lt_max_iff, ih]

lemma foldr_max_of_mem (l : List Nat) (x : Nat) (hx : x ∈ l) : x ≤ l.foldr max 0 := by
  induction l with
  | nil => simp at hx
  | cons y l ih =>
    rcases List.mem_cons.mp hx with h | h
    · subst h; exact le_max_left _ _
    · exact le_trans (ih h) (le_max_right _ _)

/-! ### The spec's four exclusion conditions, stated from the spec's wording -/

/-- Spec condition 1: some segment targeting this defined memory has a
dynamically-computed base. -/
def specDynamicBase (m : WasmModule) (segments : List MemoryInitializer) (d : Nat) : Prop :=
  ∃ s ∈ segments, m.defined_memory_index s.memory_index = some d ∧ s.base.isSome

/-- Spec condition 2: some segment targeting this defined memory has
offset + length overflowing usize arithmetic. -/
def specOverflow (m : WasmModule) (segments : List MemoryInitializer) (d : Nat) : Prop :=
  ∃ s ∈ segments, m.defined_memory_index s.memory_index = some d ∧
    USIZE_MOD ≤ s.offset + s.data.len

/-- Spec condition 3: some segment targeting this defined memory ends beyond the
memory's declared minimum size in bytes. -/
def specMinExceeded (m : WasmModule) (segments : List MemoryInitializer) (d : Nat) : Prop :=
  ∃ s ∈ segments, m.defined_memory_index s.memory_index = some d ∧
    minSizeBytes m s.memory_index < s.offset + s.data.len

/-- The accumulated required size of a defined memory per the spec: the maximal end
of the constant-base segments targeting it (0 when there are none). -/
def specRequiredSize (m : WasmModule) (segments : List MemoryInitializer) (d : Nat) : Nat :=
  ((segments.filter fun s =>
      decide (m.defined_memory_index s.memory_index = some d) && s.base.isNone).map
    fun s => s.offset + s.data.len).foldr max 0

/-- Spec condition 4: the memory's accumulated required size exceeds the fixed
1 GiB hard cap. -/
def specCapExceeded (m : WasmModule) (segments : List MemoryInitializer) (d : Nat) : Prop :=
  MAX_MEMFD_IMAGE_SIZE < specRequiredSize m segments d

/-- The spec's exclusion condition: the disjunction of the four conditions. -/
def specExcluded (m : WasmModule) (segments : List MemoryInitializer) (d : Nat) : Prop :=
  specDynamicBase m segments d ∨ specOverflow m segments d ∨
    specMinExceeded m segments d ∨ specCapExceeded m segments d

/-- The code's exclusion set coincides with the spec's four conditions (for the
Segmented strategy). -/
lemma any_segExcludes_iff (m : WasmModule) (segments : List MemoryInitializer) (d : Nat) :
    (segments.any fun s => segExcludes m s d) = true ↔ specExcluded m segments d := by
  rw [List.any_eq_true]
  constructor
  · rintro ⟨s, hs, hex⟩
    unfold segExcludes at hex
    cases hdm : m.defined_memory_index s.memory_index with
    | none => rw [hdm] at hex; simp at hex
    | some dm =>
      rw [hdm] at hex
      simp only [Bool.and_eq_true, decide_eq_true_eq, Bool.or_eq_true] at hex
      obtain ⟨hd, hrest⟩ := hex
      subst hd
      cases hb : s.base with
      | some g => exact Or.inl ⟨s, hs, hdm, by simp [hb]⟩
      | none =>
        rcases hrest with hbase | hrest
        · rw [hb] at hbase; simp at hbase
        · cases hc : checked_add s.offset s.data.len with
          | none =>
            refine Or.inr (Or.inl ⟨s, hs, hdm, ?_⟩)
            unfold checked_add at hc
            by_cases h : s.offset + s.data.len < USIZE_MOD
            · simp [h] at hc
            · omega
          | some top =>
            rw [hc] at hrest
            have htop : top = s.offset + s.data.len := by
              unfold checked_add at hc
              by_cases h : s.offset + s.data.len < USIZE_MOD <;> simp [h] at hc <;> omega
            simp only [Bool.or_eq_true, decide_eq_true_eq] at hrest
            rcases hrest with hmin | hcap
            · exact Or.inr (Or.inr (Or.inl ⟨s, hs, hdm, htop ▸ hmin⟩))
            · refine Or.inr (Or.inr (Or.inr ?_))
              unfold specCapExceeded
              have hmem : s ∈ segments.filter fun s =>
                  decide (m.defined_memory_index s.memory_index = some d) && s.base.isNone := by
                rw [List.mem_filter]
                exact ⟨hs, by simp [hdm, hb]⟩
              have hmm : s.offset + s.data.len ∈ (segments.filter fun s =>
                  decide (m.defined_memory_index s.memory_index = some d) && s.base.isNone).map
                    fun s => s.offset + s.data.len :=
                List.mem_map_of_mem _ hmem
              have hle := foldr_max_of_mem _ _ hmm
              unfold specRequiredSize
              omega
  · intro hspec
    rcases hspec with ⟨s, hs, hdm, hbase⟩ | ⟨s, hs, hdm, hovf⟩ | ⟨s, hs, hdm, hmin⟩ | hcap
    · refine ⟨s, hs, ?_⟩
      unfold segExcludes
      rw [hdm]
      simp [hbase]
    · refine ⟨s, hs, ?_⟩
      unfold segExcludes checked_add
      rw [hdm]
      simp only [Bool.and_eq_true, decide_eq_true_eq, Bool.or_eq_true]
      refine ⟨trivial, Or.inr ?_⟩
      rw [if_neg (by omega)]
    · refine ⟨s, hs, ?_⟩
      unfold segExcludes checked_add
      rw [hdm]
      simp only [Bool.and_eq_true, decide_eq_true_eq, Bool.or_eq_true]
      refine ⟨trivial, ?_⟩
      cases hb : s.base with
      | some g => simp
      | none =>
        refine Or.inr ?_
        by_cases hovf : s.offset + s.data.len < USIZE_MOD
        · rw [if_pos hovf]
          simp only [Bool.or_eq_true, decide_eq_true_eq]
          exact Or.inl hmin
        · rw [if_neg hovf]
    · unfold specCapExceeded specRequiredSize at hcap
      rw [lt_foldr_max_iff] at hcap
      obtain ⟨x, hx, hxgt⟩ := hcap
      rw [List.mem_map] at hx
      obtain ⟨s, hsf, hxeq⟩ := hx
      rw [List.mem_filter] at hsf
      obtain ⟨hs, hcond⟩ := hsf
      simp only [Bool.and_eq_true, decide_eq_true_eq, Option.isNone_iff_eq_none] at hcond
      obtain ⟨hdm, hbnone⟩ := hcond
      subst hxeq
      refine ⟨s, hs, ?_⟩
      unfold segExcludes checked_add
      rw [hdm]
      simp only [Bool.and_eq_true, decide_eq_true_eq, Bool.or_eq_true]
      refine ⟨trivial, Or.inr ?_⟩
      by_cases hovf : s.offset + s.data.len < USIZE_MOD
      · rw [if_pos hovf]
        simp only [Bool.or_eq_true, decide_eq_true_eq]
        exact Or.inr hxgt
      · rw [if_neg hovf]

/-! ### The page-rounding bit trick -/

lemma land_high_mask (k n x : Nat) (hk : k ≤ n) (hx : x < 2 ^ n) :
    x &&& (2 ^ n - 2 ^ k) = 2 ^ k * (x / 2 ^ k) := by
  have hmask : 2 ^ n - 2 ^ k = (2 ^ (n - k) - 1) <<< k := by
    rw [Nat.shiftLeft_eq, Nat.sub_mul, one_mul, ← pow_add, Nat.sub_add_cancel hk]
  have hrhs : 2 ^ k * (x / 2 ^ k) = (x >>> k) <<< k := by
    rw [Nat.shiftRight_eq_div_pow, Nat.shiftLeft_eq, Nat.mul_comm]
  rw [hmask, hrhs]
  apply Nat.eq_of_testBit_eq
  intro i
  rw [Nat.testBit_land, Nat.testBit_shiftLeft, Nat.testBit_shiftLeft, Nat.testBit_shiftRight]
  by_cases hik : k ≤ i
  · have hki : k + (i - k) = i := by omega
    rw [Nat.testBit_two_pow_sub_one, hki]
    by_cases hin : i < n
    · have hkn : i - k < n - k := by omega
      simp [hik, hin, hkn]
    · have h1 : x.testBit i = false :=
        Nat.testBit_lt_two_pow
          (lt_of_lt_of_le hx (Nat.pow_le_pow_right (by norm_num) (by omega)))
      simp [hik, h1]
  · simp [hik]

lemma pageAlign_eq (k size : Nat) (hk : k ≤ 64) (hsz : size + 2 ^ k ≤ USIZE_MOD) :
    pageAlign (2 ^ k) size = 2 ^ k * ((size + 2 ^ k - 1) / 2 ^ k) := by
  have hps : 0 < 2 ^ k := pow_pos (by norm_num) k
  have hlt : size + 2 ^ k - 1 < USIZE_MOD := by omega
  unfold pageAlign
  rw [Nat.mod_eq_of_lt hlt]
  exact land_high_mask k 64 _ hk hlt

lemma pageAlign_dvd (k size : Nat) (hk : k ≤ 64) (hsz : size + 2 ^ k ≤ USIZE_MOD) :
    2 ^ k ∣ pageAlign (2 ^ k) size := by
  rw [pageAlign_eq k size hk hsz]
  exact Dvd.intro _ rfl

lemma le_pageAlign (k size : Nat) (hk : k ≤ 64) (hsz : size + 2 ^ k ≤ USIZE_MOD) :
    size ≤ pageAlign (2 ^ k) size := by
  rw [pageAlign_eq k size hk hsz]
  rcases Nat.eq_zero_or_pos size with h0 | h0
  · simp [h0]
  · have hps : 0 < 2 ^ k := pow_pos (by norm_num) k
    have hdm : 2 ^ k * ((size + 2 ^ k - 1) / 2 ^ k) + (size + 2 ^ k - 1) % 2 ^ k
        = size + 2 ^ k - 1 := Nat.div_add_mod _ _
    have hrlt : (size + 2 ^ k - 1) % 2 ^ k < 2 ^ k := Nat.mod_lt _ hps
    omega

/-! ### Indexing into the built image set -/

lemma buildAt_eq (ps : Nat) (m : WasmModule) (blob : List Nat) (d : Nat)
    (hd : d < numDefined m) :
    buildAt ps m blob d = memEntry ps m blob (buildState m) d := by
  unfold buildAt build_memfds
  rw [List.getD_eq_getElem?_getD, List.getElem?_map, List.getElem?_range hd]
  rfl

/-! ### Reading back the writes -/

/-- Write w covers byte offset a of the image. -/
def inWrite (w : Nat × DataRange) (a : Nat) : Prop :=
  w.1 ≤ a ∧ a < w.1 + w.2.len

/-- Two writes touch disjoint byte ranges of the image. -/
def wDisjoint (w v : Nat × DataRange) : Prop :=
  w.1 + w.2.len ≤ v.1 ∨ v.1 + v.2.len ≤ w.1

instance : DecidableRel wDisjoint := fun w v => by
  unfold wDisjoint
  infer_instance

lemma applyWrites_cons (blob : List Nat) (c : Nat → Nat) (w : Nat × DataRange)
    (ws : List (Nat × DataRange)) :
    applyWrites blob c (w :: ws) = applyWrites blob (writeAt c blob w.2 w.1) ws := rfl

lemma applyWrites_not_covered (blob : List Nat) (ws : List (Nat × DataRange)) :
    ∀ (c : Nat → Nat) (a : Nat), (∀ w ∈ ws, ¬ inWrite w a) →
      applyWrites blob c ws a = c a := by
  induction ws with
  | nil => intro c a _; rfl
  | cons w ws ih =>
    intro c a h
    rw [applyWrites_cons, ih _ a fun v hv => h v (List.mem_cons_of_mem _ hv)]
    have h0 := h w (List.mem_cons_self _ _)
    unfold inWrite at h0
    unfold writeAt
    rw [if_neg h0]

lemma applyWrites_covered (blob : List Nat) (ws : List (Nat × DataRange)) :
    ∀ c : Nat → Nat, List.Pairwise wDisjoint ws → ∀ w ∈ ws, ∀ j < w.2.len,
      applyWrites blob c ws (w.1 + j) = blob.getD (w.2.start + j) 0 := by
  induction ws with
  | nil => simp
  | cons v ws ih =>
    intro c hp w hw j hj
    rw [List.pairwise_cons] at hp
    obtain ⟨hdis, hp2⟩ := hp
    rw [applyWrites_cons]
    rcases List.mem_cons.mp hw with hwv | hw2
    · subst hwv
      have hnc : ∀ u ∈ ws, ¬ inWrite u (w.1 + j) := by
        intro u hu
        have hd := hdis u hu
        unfold wDisjoint at hd
        unfold inWrite
        omega
      rw [applyWrites_not_covered blob ws _ _ hnc]
      unfold writeAt
      rw [if_pos ⟨by omega, by omega⟩]
      congr 1
      omega
    · exact ih _ hp2 w hw2 j hj

/-! ### The registry under concurrent get_or_create calls

Each thread runs one get_or_create call for its id.  Its builder outcome bres is
predetermined, since build_memfds is pure in the layout and blob (an OS resource
failure is the error case).  The two lock-protected critical sections of the
source - the first lookup and the entry insert - are the atomic steps; the build
itself runs between them without the lock. -/

inductive Phase where
  | start : Phase
  | building : Phase
  | done : ModuleMemFds → Phase
  | failed : Phase

structure ThreadSt where
  id : Nat
  bres : Except Unit ModuleMemFds
  phase : Phase

structure SysState where
  map : Nat → Option ModuleMemFds
  threads : List ThreadSt

/-- One atomic step of one thread of the registry protocol of get_or_create. -/
inductive RegStep : SysState → SysState → Prop where
  | lookupHit (s : SysState) (n : Nat) (t : ThreadSt) (v : ModuleMemFds) :
      s.threads.get? n = some t → t.phase = .start → s.map t.id = some v →
      RegStep s { s with threads := s.threads.set n { t with phase := .done v } }
  | lookupMiss (s : SysState) (n : Nat) (t : ThreadSt) :
      s.threads.get? n = some t → t.phase = .start → s.map t.id = none →
      RegStep s { s with threads := s.threads.set n { t with phase := .building } }
  | buildFail (s : SysState) (n : Nat) (t : ThreadSt) (e : Unit) :
      s.threads.get? n = some t → t.phase = .building → t.bres = .error e →
      RegStep s { s with threads := s.threads.set n { t with phase := .failed } }
  | insertWin (s : SysState) (n : Nat) (t : ThreadSt) (v : ModuleMemFds) :
      s.threads.get? n = some t → t.phase = .building → t.bres = .ok v →
      s.map t.id = none →
      RegStep s { map := fun i => if i = t.id then some v else s.map i,
                  threads := s.threads.set n { t with phase := .done v } }
  | insertLose (s : SysState) (n : Nat) (t : ThreadSt) (v w : ModuleMemFds) :
      s.threads.get? n = some t → t.phase = .building → t.bres = .ok v →
      s.map t.id = some w →
      RegStep s { s with threads := s.threads.set n { t with phase := .done w } }

/-- Interleavings: the reflexive-transitive closure of the step relation. -/
inductive RegReach : SysState → SysState → Prop where
  | refl (s : SysState) : RegReach s s
  | tail (s t u : SysState) : RegReach s t → RegStep t u → RegReach s u

/-- Every thread that has completed get_or_create successfully returned exactly
the image set stored in the registry at its id. -/
def DoneCoherent (s : SysState) : Prop :=
  ∀ t ∈ s.threads, ∀ v, t.phase = Phase.done v → s.map t.id = some v

lemma regStep_mono (s u : SysState) (h : RegStep s u) (i : Nat) (v : ModuleMemFds)
    (hv : s.map i = some v) : u.map i = some v := by
  cases h with
  | lookupHit n t w h1 h2 h3 => exact hv
  | lookupMiss n t h1 h2 h3 => exact hv
  | buildFail n t e h1 h2 h3 => exact hv
  | insertWin n t w h1 h2 h3 h4 =>
    show (if i = t.id then some w else s.map i) = some v
    by_cases hi : i = t.id
    · rw [hi] at hv; rw [hv] at h4; cases h4
    · rw [if_neg hi]; exact hv
  | insertLose n t w x h1 h2 h3 h4 => exact hv

lemma regStep_coherent (s u : SysState) (h : RegStep s u) (hc : DoneCoherent s) :
    DoneCoherent u := by
  intro t2 ht2 v2 hph
  cases h with
  | lookupHit n t w h1 h2 h3 =>
    rcases List.mem_or_eq_of_mem_set ht2 with hold | hnew
    · exact hc t2 hold v2 hph
    · subst hnew
      cases hph
      exact h3
  | lookupMiss n t h1 h2 h3 =>
    rcases List.mem_or_eq_of_mem_set ht2 with hold | hnew
    · exact hc t2 hold v2 hph
    · subst hnew; cases hph
  | buildFail n t e h1 h2 h3 =>
    rcases List.mem_or_eq_of_mem_set ht2 with hold | hnew
    · exact hc t2 hold v2 hph
    · subst hnew; cases hph
  | insertWin n t w h1 h2 h3 h4 =>
    rcases List.mem_or_eq_of_mem_set ht2 with hold | hnew
    · exact regStep_mono s _ (RegStep.insertWin s n t w h1 h2 h3 h4) t2.id v2
        (hc t2 hold v2 hph)
    · subst hnew
      cases hph
      simp
  | insertLose n t w x h1 h2 h3 h4 =>
    rcases List.mem_or_eq_of_mem_set ht2 with hold | hnew
    · exact hc t2 hold v2 hph
    · subst hnew
      cases hph
      exact h4

lemma regReach_mono (s0 s : SysState) (h : RegReach s0 s) (i : Nat) (v : ModuleMemFds)
    (hv : s0.map i = some v) : s.map i = some v := by
  induction h with
  | refl => exact hv
  | tail t u hr hs ih => exact regStep_mono t u hs i v ih

lemma regReach_coherent (s0 s : SysState) (h : RegReach s0 s) (hc : DoneCoherent s0) :
    DoneCoherent s := by
  induction h with
  | refl => exact hc
  | tail t u hr hs ih => exact regStep_coherent t u hs ih

/-! ### Facts about indexing into the built image set -/

lemma buildAt_some (ps : Nat) (m : WasmModule) (blob : List Nat) (d : Nat)
    (img : MemoryMemFd) (h : buildAt ps m blob d = some img) :
    img.content = memContent m blob (buildState m) d ∧
    img.len = pageAlign ps ((buildState m).sizes d) ∧
    (buildState m).excluded d = false ∧ (buildState m).sizes d ≠ 0 ∧
    d < numDefined m := by
  by_cases hd : d < numDefined m
  · rw [buildAt_eq ps m blob d hd] at h
    unfold memEntry at h
    by_cases hx : (buildState m).excluded d = true
    · rw [if_pos hx] at h; cases h
    · rw [if_neg hx] at h
      by_cases hz : (buildState m).sizes d = 0
      · rw [if_pos hz] at h; cases h
      · rw [if_neg hz] at h
        injection h with h2
        refine ⟨by rw [← h2], by rw [← h2], ?_, hz, hd⟩
        cases hb : (buildState m).excluded d
        · rfl
        · exact absurd hb hx
  · exfalso
    unfold buildAt build_memfds at h
    rw [List.getD_eq_getElem?_getD, List.getElem?_map] at h
    have hnone : (List.range (numDefined m))[d]? = none := by
      rw [List.getElem?_eq_none]
      simpa using Nat.le_of_not_lt hd
    rw [hnone] at h
    simp at h

/-- The Segmented-strategy sizing state, characterized segment-wise. -/
lemma buildState_seg (m : WasmModule) (segments : List MemoryInitializer)
    (hseg : m.memory_initialization = .Segmented segments) (d : Nat) :
    (buildState m).excluded d = (segments.any fun s => segExcludes m s d) ∧
    (buildState m).segs d = (segments.filter fun s => segRecords m s d) ∧
    (buildState m).sizes d = (segments.filter fun s => segRecords m s d).foldl
      (fun a s => max a (s.offset + s.data.len)) 0 := by
  unfold buildState
  rw [hseg]
  refine ⟨?_, ?_, ?_⟩
  · rw [foldl_excluded]; simp [initState]
  · rw [foldl_segs]; simp [initState]
  · rw [foldl_sizes]; simp [initState]

/-! ### C1 -/

/-- Example module: one defined memory, Segmented strategy, no segments at all. -/
def exM1 : WasmModule := ⟨[⟨1⟩], 0, .Segmented []⟩

/-- C1 counterexample: the single defined memory of exM1 is produced as None by
build_memfds although none of the four listed exclusion conditions holds for it
(it simply has no initializer, hence required size 0). -/
theorem c1_counterexample :
    buildAt 4096 exM1 [] 0 = none ∧ ¬ specExcluded exM1 [] 0 := by
  constructor
  · rfl
  · rintro (⟨s, hs, hrest⟩ | ⟨s, hs, hrest⟩ | ⟨s, hs, hrest⟩ | hcap)
    · cases hs
    · cases hs
    · cases hs
    · unfold specCapExceeded specRequiredSize at hcap
      simp at hcap

/-- C1 (amended): build_memfds produces None for defined memory d iff, in the
Segmented strategy, one of the four conditions holds for d or d's accumulated
required size is 0; in the Paged strategy, iff d's page entries give required
size 0 (the four conditions are not checked there at all). -/
theorem c1_none_characterization (ps : Nat) (m : WasmModule) (blob : List Nat) (d : Nat)
    (hd : d < numDefined m) :
    (∀ segments, m.memory_initialization = .Segmented segments →
      (buildAt ps m blob d = none ↔
        specExcluded m segments d ∨ (buildState m).sizes d = 0)) ∧
    (∀ map, m.memory_initialization = .Paged map →
      (buildAt ps m blob d = none ↔ pageTop (map.getD d []) = 0)) := by
  rw [buildAt_eq ps m blob d hd]
  constructor
  · intro segments hseg
    obtain ⟨hexch, _, _⟩ := buildState_seg m segments hseg d
    unfold memEntry
    by_cases hx : (buildState m).excluded d = true
    · rw [if_pos hx]
      constructor
      · intro _
        left
        rw [← any_segExcludes_iff, ← hexch]
        exact hx
      · intro _; rfl
    · rw [if_neg hx]
      by_cases hz : (buildState m).sizes d = 0
      · rw [if_pos hz]
        exact ⟨fun _ => Or.inr hz, fun _ => rfl⟩
      · rw [if_neg hz]
        constructor
        · intro hcontra; cases hcontra
        · rintro (hspec | hzz)
          · exact absurd (hexch.trans ((any_segExcludes_iff m segments d).mpr hspec)) hx
          · exact absurd hzz hz
  · intro map hmap
    have hst : buildState m =
        { sizes := fun d => pageTop (map.getD d [])
          excluded := fun _ => false
          segs := fun _ => [] } := by
      unfold buildState
      rw [hmap]
    rw [hst]
    unfold memEntry
    by_cases hz : pageTop (map.getD d []) = 0
    · simp [hz]
    · simp [hz]

/-- Witness for C1 at a concrete input. -/
theorem c1_none_characterization_witness :
    (∀ segments, exM1.memory_initialization = .Segmented segments →
      (buildAt 4096 exM1 [] 0 = none ↔
        specExcluded exM1 segments 0 ∨ (buildState exM1).sizes 0 = 0)) ∧
    (∀ map, exM1.memory_initialization = .Paged map →
      (buildAt 4096 exM1 [] 0 = none ↔ pageTop (map.getD 0 []) = 0)) :=
  c1_none_characterization 4096 exM1 [] 0 (by decide)

/-! ### C2 -/

/-- The byte of an optional image at an offset (999 when there is no image). -/
def contentAt (o : Option MemoryMemFd) (a : Nat) : Nat :=
  match o with
  | none => 999
  | some img => img.content a

/-- Example module with two overlapping constant segments into one memory. -/
def exM2 : WasmModule :=
  ⟨[⟨1⟩], 0, .Segmented [⟨0, none, 0, ⟨0, 1⟩⟩, ⟨0, none, 0, ⟨1, 2⟩⟩]⟩

/-- The blob for exM2: segment 0 writes byte 1 at offset 0, segment 1 writes
byte 2 at offset 0. -/
def exBlob2 : List Nat := [1, 2]

/-- C2 counterexample: both segments of exM2 are recorded, segment 0's data byte
at its offset 0 is 1, yet the built image reads 2 at offset 0 (the overlapping
later segment overwrote it), so not every written byte is read back unchanged. -/
theorem c2_counterexample :
    memWrites exM2 (buildState exM2) 0 = [(0, ⟨0, 1⟩), (0, ⟨1, 2⟩)] ∧
    exBlob2.getD 0 0 = 1 ∧
    contentAt (buildAt 4096 exM2 exBlob2 0) 0 = 2 := by
  refine ⟨by decide, by decide, by decide⟩

/-- C2 (amended): when the writes recorded for a memory that received an image are
pairwise disjoint (as they are for the initializers this optimization targets),
every byte the builder writes is read back unchanged at the same offset from the
image, and every offset not covered by any write reads as zero. -/
theorem c2_round_trip (ps : Nat) (m : WasmModule) (blob : List Nat) (d : Nat)
    (img : MemoryMemFd) (himg : buildAt ps m blob d = some img)
    (hdis : List.Pairwise wDisjoint (memWrites m (buildState m) d)) :
    (∀ w ∈ memWrites m (buildState m) d, ∀ j < w.2.len,
      img.content (w.1 + j) = blob.getD (w.2.start + j) 0) ∧
    (∀ a, (∀ w ∈ memWrites m (buildState m) d, ¬ inWrite w a) →
      img.content a = 0) := by
  obtain ⟨hc, _, _, _, _⟩ := buildAt_some ps m blob d img himg
  rw [hc]
  unfold memContent
  constructor
  · intro w hw j hj
    exact applyWrites_covered blob _ _ hdis w hw j hj
  · intro a ha
    exact applyWrites_not_covered blob _ _ a ha

/-- Example module with a single two-byte constant segment. -/
def exM5 : WasmModule := ⟨[⟨1⟩], 0, .Segmented [⟨0, none, 0, ⟨0, 2⟩⟩]⟩

/-- The blob for exM5. -/
def exBlob5 : List Nat := [7, 8]

/-- Witness for C2 at a concrete input. -/
theorem c2_round_trip_witness :
    (∀ w ∈ memWrites exM5 (buildState exM5) 0, ∀ j < w.2.len,
      MemoryMemFd.content
        ⟨memContent exM5 exBlob5 (buildState exM5) 0,
          pageAlign 4096 ((buildState exM5).sizes 0)⟩ (w.1 + j) =
        exBlob5.getD (w.2.start + j) 0) ∧
    (∀ a, (∀ w ∈ memWrites exM5 (buildState exM5) 0, ¬ inWrite w a) →
      MemoryMemFd.content
        ⟨memContent exM5 exBlob5 (buildState exM5) 0,
          pageAlign 4096 ((buildState exM5).sizes 0)⟩ a = 0) :=
  c2_round_trip 4096 exM5 exBlob5 0
    ⟨memContent exM5 exBlob5 (buildState exM5) 0,
      pageAlign 4096 ((buildState exM5).sizes 0)⟩ rfl (by decide)

/-! ### C3 -/

/-- Example Paged module whose single memory needs cap + 1 bytes: one page entry
of length 0 based at offset MAX_MEMFD_IMAGE_SIZE + 1. -/
def exM3 : WasmModule := ⟨[⟨0⟩], 0, .Paged [[(1073741825, ⟨0, 0⟩)]]⟩

/-- C3 counterexample: in the Paged strategy a required size of cap + 1 bytes does
not cause exclusion - the memory still receives an image, because the 1 GiB cap is
only checked in the Segmented strategy. -/
theorem c3_counterexample :
    (buildState exM3).sizes 0 = MAX_MEMFD_IMAGE_SIZE + 1 ∧
    (buildAt 4096 exM3 [] 0).isSome = true := by
  refine ⟨by decide, by decide⟩

/-- A segment with constant base whose end is cap + 1 excludes its target memory. -/
lemma segExcludes_of_cap_plus_one (m : WasmModule) (s : MemoryInitializer) (d : Nat)
    (hdm : m.defined_memory_index s.memory_index = some d) (hb : s.base = none)
    (hsum : s.offset + s.data.len = MAX_MEMFD_IMAGE_SIZE + 1) :
    segExcludes m s d = true := by
  unfold segExcludes checked_add
  rw [hdm]
  simp only [Bool.and_eq_true, decide_eq_true_eq, Bool.or_eq_true]
  refine ⟨trivial, Or.inr ?_⟩
  rw [if_pos (by rw [hsum]; decide)]
  simp only [Bool.or_eq_true, decide_eq_true_eq]
  right
  omega

/-- C3 (amended): in the Segmented strategy the 1 GiB cap is a strict boundary: a
memory that is not excluded and whose accumulated required size is exactly the cap
receives an image, while any constant-base segment whose end is cap + 1 excludes
its target memory (None).  The Paged strategy applies no cap at all. -/
theorem c3_cap_boundary (ps : Nat) (m : WasmModule) (blob : List Nat) (d : Nat)
    (hd : d < numDefined m) :
    ((buildState m).excluded d = false →
      (buildState m).sizes d = MAX_MEMFD_IMAGE_SIZE →
      (buildAt ps m blob d).isSome = true) ∧
    (∀ segments s, m.memory_initialization = .Segmented segments → s ∈ segments →
      m.defined_memory_index s.memory_index = some d → s.base = none →
      s.offset + s.data.len = MAX_MEMFD_IMAGE_SIZE + 1 →
      buildAt ps m blob d = none) := by
  rw [buildAt_eq ps m blob d hd]
  constructor
  · intro hx hsz
    unfold memEntry
    rw [hx]
    rw [if_neg (by simp), if_neg (by rw [hsz]; decide)]
    rfl
  · intro segments s hseg hs hdm hb hsum
    obtain ⟨hexch, _, _⟩ := buildState_seg m segments hseg d
    have hx : (buildState m).excluded d = true := by
      rw [hexch, List.any_eq_true]
      exact ⟨s, hs, segExcludes_of_cap_plus_one m s d hdm hb hsum⟩
    unfold memEntry
    rw [if_pos hx]

/-- Example Segmented module whose single segment ends exactly at the cap
(declared minimum 16384 pages = exactly 1 GiB). -/
def exMcap : WasmModule := ⟨[⟨16384⟩], 0, .Segmented [⟨0, none, 0, ⟨0, 1073741824⟩⟩]⟩

/-- Witness for C3 at a concrete input. -/
theorem c3_cap_boundary_witness :
    (((buildState exMcap).excluded 0 = false →
      (buildState exMcap).sizes 0 = MAX_MEMFD_IMAGE_SIZE →
      (buildAt 4096 exMcap [] 0).isSome = true)) ∧
    (∀ segments s, exMcap.memory_initialization = .Segmented segments → s ∈ segments →
      exMcap.defined_memory_index s.memory_index = some 0 → s.base = none →
      s.offset + s.data.len = MAX_MEMFD_IMAGE_SIZE + 1 →
      buildAt 4096 exMcap [] 0 = none) :=
  c3_cap_boundary 4096 exMcap [] 0 (by decide)

/-! ### C4 -/

/-- Example Segmented module with declared minimum 0 pages and a single empty
segment: its end (0) equals the declared minimum size in bytes (0). -/
def exM4 : WasmModule := ⟨[⟨0⟩], 0, .Segmented [⟨0, none, 0, ⟨0, 0⟩⟩]⟩

/-- C4 counterexample: in exM4 the segment's end equals the target memory's
declared minimum size in bytes (both 0), yet the memory is not included -
build_memfds yields None for it (required size 0). -/
theorem c4_counterexample :
    (0 : Nat) + DataRange.len ⟨0, 0⟩ = minSizeBytes exM4 0 ∧
    buildAt 4096 exM4 [] 0 = none := by
  refine ⟨by decide, rfl⟩

/-- A segment with constant base whose end is the declared minimum plus one
excludes its target memory. -/
lemma segExcludes_of_min_plus_one (m : WasmModule) (s : MemoryInitializer) (d : Nat)
    (hdm : m.defined_memory_index s.memory_index = some d) (hb : s.base = none)
    (hsum : s.offset + s.data.len = minSizeBytes m s.memory_index + 1) :
    segExcludes m s d = true := by
  unfold segExcludes checked_add
  rw [hdm]
  simp only [Bool.and_eq_true, decide_eq_true_eq, Bool.or_eq_true]
  refine ⟨trivial, Or.inr ?_⟩
  by_cases hovf : s.offset + s.data.len < USIZE_MOD
  · rw [if_pos hovf]
    simp only [Bool.or_eq_true, decide_eq_true_eq]
    left
    omega
  · rw [if_neg hovf]

/-- C4 (amended): the declared minimum size is a strict boundary in the Segmented
strategy: a constant-base segment targeting d whose end equals the declared
minimum size in bytes is recorded, and d receives an image provided the end is
positive, within the cap, and no segment excludes d; while any constant-base
segment whose end is the minimum size plus one excludes d (None). -/
theorem c4_min_boundary (ps : Nat) (m : WasmModule) (blob : List Nat) (d : Nat)
    (hd : d < numDefined m) :
    (∀ segments s, m.memory_initialization = .Segmented segments → s ∈ segments →
      m.defined_memory_index s.memory_index = some d → s.base = none →
      s.offset + s.data.len = minSizeBytes m s.memory_index →
      0 < s.offset + s.data.len → s.offset + s.data.len ≤ MAX_MEMFD_IMAGE_SIZE →
      (buildState m).excluded d = false →
      (buildAt ps m blob d).isSome = true) ∧
    (∀ segments s, m.memory_initialization = .Segmented segments → s ∈ segments →
      m.defined_memory_index s.memory_index = some d → s.base = none →
      s.offset + s.data.len = minSizeBytes m s.memory_index + 1 →
      buildAt ps m blob d = none) := by
  rw [buildAt_eq ps m blob d hd]
  constructor
  · intro segments s hseg hs hdm hb hsum hpos hcap hx
    obtain ⟨_, _, hsizes⟩ := buildState_seg m segments hseg d
    have hrec : segRecords m s d = true := by
      unfold segRecords checked_add
      rw [hdm]
      simp only [Bool.and_eq_true, decide_eq_true_eq]
      have hlt : s.offset + s.data.len < USIZE_MOD := by
        have : minSizeBytes m s.memory_index < USIZE_MOD :=
          Nat.mod_lt _ (by unfold USIZE_MOD; norm_num)
        omega
      rw [if_pos hlt]
      simp only [Bool.and_eq_true, decide_eq_true_eq]
      exact ⟨⟨trivial, by rw [hb]; rfl⟩, by omega, hcap⟩
    have hmem : s ∈ segments.filter fun s => segRecords m s d :=
      List.mem_filter.mpr ⟨hs, hrec⟩
    have hle : s.offset + s.data.len ≤ (buildState m).sizes d := by
      rw [hsizes]
      exact foldl_max_of_mem _ (fun s => s.offset + s.data.len) s hmem 0
    unfold memEntry
    rw [hx]
    rw [if_neg (by simp), if_neg (by omega)]
    rfl
  · intro segments s hseg hs hdm hb hsum
    obtain ⟨hexch, _, _⟩ := buildState_seg m segments hseg d
    have hx : (buildState m).excluded d = true := by
      rw [hexch, List.any_eq_true]
      exact ⟨s, hs, segExcludes_of_min_plus_one m s d hdm hb hsum⟩
    unfold memEntry
    rw [if_pos hx]

/-- Example Segmented module with one segment ending exactly at the declared
minimum size (1 page, 65536 bytes). -/
def exMmin : WasmModule := ⟨[⟨1⟩], 0, .Segmented [⟨0, none, 0, ⟨0, 65536⟩⟩]⟩

/-- Witness for C4 at a concrete input. -/
theorem c4_min_boundary_witness :
    (∀ segments s, exMmin.memory_initialization = .Segmented segments → s ∈ segments →
      exMmin.defined_memory_index s.memory_index = some 0 → s.base = none →
      s.offset + s.data.len = minSizeBytes exMmin s.memory_index →
      0 < s.offset + s.data.len → s.offset + s.data.len ≤ MAX_MEMFD_IMAGE_SIZE →
      (buildState exMmin).excluded 0 = false →
      (buildAt 4096 exMmin [] 0).isSome = true) ∧
    (∀ segments s, exMmin.memory_initialization = .Segmented segments → s ∈ segments →
      exMmin.defined_memory_index s.memory_index = some 0 → s.base = none →
      s.offset + s.data.len = minSizeBytes exMmin s.memory_index + 1 →
      buildAt 4096 exMmin [] 0 = none) :=
  c4_min_boundary 4096 exMmin [] 0 (by decide)

/-! ### C5 -/

/-- Every write recorded for a memory fits inside that memory's accumulated
required size (given that the Paged additions do not wrap). -/
lemma memWrites_extent (m : WasmModule) (d : Nat)
    (hnw : ∀ w ∈ memWrites m (buildState m) d, w.1 + w.2.len < USIZE_MOD) :
    ∀ w ∈ memWrites m (buildState m) d, w.1 + w.2.len ≤ (buildState m).sizes d := by
  intro w hw
  cases hm : m.memory_initialization with
  | Segmented segments =>
    obtain ⟨_, hsegs, hsizes⟩ := buildState_seg m segments hm d
    unfold memWrites at hw
    rw [hm] at hw
    rw [List.mem_map] at hw
    obtain ⟨s, hsmem, hweq⟩ := hw
    rw [hsegs] at hsmem
    have hle : s.offset + s.data.len ≤ (buildState m).sizes d := by
      rw [hsizes]
      exact foldl_max_of_mem _ (fun s => s.offset + s.data.len) s hsmem 0
    rw [← hweq]
    exact hle
  | Paged map =>
    have hst : (buildState m).sizes d = pageTop (map.getD d []) := by
      unfold buildState
      rw [hm]
    have hw2 : w ∈ map.getD d [] := by
      unfold memWrites at hw
      rw [hm] at hw
      exact hw
    have hmm : (w.1 + w.2.len) % USIZE_MOD ∈
        (map.getD d []).map fun p => (p.1 + p.2.len) % USIZE_MOD :=
      List.mem_map_of_mem _ hw2
    have hle := foldr_max_of_mem _ _ hmm
    rw [Nat.mod_eq_of_lt (hnw w hw)] at hle
    rw [hst]
    exact hle

/-- C5: every image produced by a successful build has a length that is a multiple
of the host page size (a power of two) and strictly exceeds every byte offset
covered by an initializer written into it, provided the arithmetic stays within
usize (page entry ends do not wrap and the size plus page size fits). -/
theorem c5_image_length (ps k : Nat) (m : WasmModule) (blob : List Nat) (d : Nat)
    (img : MemoryMemFd) (hps : ps = 2 ^ k) (hk : k ≤ 64)
    (hnw : ∀ w ∈ memWrites m (buildState m) d, w.1 + w.2.len < USIZE_MOD)
    (hsz : (buildState m).sizes d + ps ≤ USIZE_MOD)
    (himg : buildAt ps m blob d = some img) :
    ps ∣ img.len ∧
    ∀ w ∈ memWrites m (buildState m) d, ∀ j < w.2.len, w.1 + j < img.len := by
  obtain ⟨_, hlen, _, _, _⟩ := buildAt_some ps m blob d img himg
  subst hps
  rw [hlen]
  have hszle : (buildState m).sizes d ≤ pageAlign (2 ^ k) ((buildState m).sizes d) :=
    le_pageAlign k _ hk hsz
  refine ⟨pageAlign_dvd k _ hk hsz, ?_⟩
  intro w hw j hj
  have hext := memWrites_extent m d hnw w hw
  omega

/-- Witness for C5 at a concrete input. -/
theorem c5_image_length_witness :
    4096 ∣ MemoryMemFd.len
      ⟨memContent exM5 exBlob5 (buildState exM5) 0,
        pageAlign 4096 ((buildState exM5).sizes 0)⟩ ∧
    ∀ w ∈ memWrites exM5 (buildState exM5) 0, ∀ j < w.2.len,
      w.1 + j < MemoryMemFd.len
        ⟨memContent exM5 exBlob5 (buildState exM5) 0,
          pageAlign 4096 ((buildState exM5).sizes 0)⟩ :=
  c5_image_length 4096 12 exM5 exBlob5 0
    ⟨memContent exM5 exBlob5 (buildState exM5) 0,
      pageAlign 4096 ((buildState exM5).sizes 0)⟩
    (by norm_num) (by norm_num) (by decide) (by decide) rfl

/-! ### C9 -/

/-- C9: a defined memory with no segments targeting it (Segmented) or no page
entries (Paged) has required size 0 and receives None; and a produced image never
has length 0 (under the same arithmetic side conditions as C5). -/
theorem c9_empty_memories (ps k : Nat) (m : WasmModule) (blob : List Nat) (d : Nat)
    (hd : d < numDefined m) :
    (∀ segments, m.memory_initialization = .Segmented segments →
      (∀ s ∈ segments, m.defined_memory_index s.memory_index ≠ some d) →
      (buildState m).sizes d = 0 ∧ buildAt ps m blob d = none) ∧
    (∀ map, m.memory_initialization = .Paged map → map.getD d [] = [] →
      (buildState m).sizes d = 0 ∧ buildAt ps m blob d = none) ∧
    (∀ img, buildAt ps m blob d = some img → ps = 2 ^ k → k ≤ 64 →
      (buildState m).sizes d + ps ≤ USIZE_MOD → img.len ≠ 0) := by
  refine ⟨?_, ?_, ?_⟩
  · intro segments hseg hnone
    obtain ⟨hexch, _, hsizes⟩ := buildState_seg m segments hseg d
    have hfilt : (segments.filter fun s => segRecords m s d) = [] := by
      rw [List.filter_eq_nil]
      intro s hs
      unfold segRecords
      cases hdm : m.defined_memory_index s.memory_index with
      | none => simp
      | some dm =>
        have : dm ≠ d := fun h => hnone s hs (h ▸ hdm)
        simp only [Bool.and_eq_true, decide_eq_true_eq, Bool.not_eq_true]
        intro hcon
        exact absurd hcon.1.1.symm this
    have hz : (buildState m).sizes d = 0 := by
      rw [hsizes, hfilt]
      rfl
    have hx : (buildState m).excluded d = false := by
      rw [hexch]
      rw [List.any_eq_false]
      intro s hs
      unfold segExcludes
      cases hdm : m.defined_memory_index s.memory_index with
      | none => simp
      | some dm =>
        have : dm ≠ d := fun h => hnone s hs (h ▸ hdm)
        simp only [Bool.and_eq_true, decide_eq_true_eq, Bool.not_eq_true]
        intro hcon
        exact absurd hcon.1.symm this
    refine ⟨hz, ?_⟩
    rw [buildAt_eq ps m blob d hd]
    unfold memEntry
    rw [hx]
    rw [if_neg (by simp), if_pos hz]
  · intro map hmap hempty
    have hst : (buildState m).sizes d = pageTop (map.getD d []) := by
      unfold buildState
      rw [hmap]
    have hz : (buildState m).sizes d = 0 := by
      rw [hst, hempty]
      rfl
    refine ⟨hz, ?_⟩
    rw [buildAt_eq ps m blob d hd]
    unfold memEntry
    have hx : (buildState m).excluded d = false := by
      unfold buildState
      rw [hmap]
    rw [hx]
    rw [if_neg (by simp), if_pos hz]
  · intro img himg hps hk hsz
    obtain ⟨_, hlen, _, hz, _⟩ := buildAt_some ps m blob d img himg
    subst hps
    rw [hlen]
    have := le_pageAlign k _ hk hsz
    omega

/-- Witness for C9 at a concrete input. -/
theorem c9_empty_memories_witness :
    (∀ segments, exM1.memory_initialization = .Segmented segments →
      (∀ s ∈ segments, exM1.defined_memory_index s.memory_index ≠ some 0) →
      (buildState exM1).sizes 0 = 0 ∧ buildAt 4096 exM1 [] 0 = none) ∧
    (∀ map, exM1.memory_initialization = .Paged map → map.getD 0 [] = [] →
      (buildState exM1).sizes 0 = 0 ∧ buildAt 4096 exM1 [] 0 = none) ∧
    (∀ img, buildAt 4096 exM1 [] 0 = some img → 4096 = 2 ^ 12 → 12 ≤ 64 →
      (buildState exM1).sizes 0 + 4096 ≤ USIZE_MOD → img.len ≠ 0) :=
  c9_empty_memories 4096 12 exM1 [] 0 (by decide)

/-! ### C10 -/

/-- C10: a successful build yields exactly one entry per locally-defined memory
(memory_plans.len - num_imported_memories of them), and get_memory_image is
defined exactly on indices strictly below that count - outside it the source
indexing panics, modelled here by the outer none. -/
theorem c10_entry_count (ps : Nat) (m : WasmModule) (blob : List Nat)
    (hwf : m.num_imported_memories ≤ m.memory_plans.length) :
    List.length (build_memfds ps m blob) =
      m.memory_plans.length - m.num_imported_memories ∧
    ∀ i, (get_memory_image (build_memfds ps m blob) i).isSome = true ↔
      i < m.memory_plans.length - m.num_imported_memories := by
  have hlen : List.length (build_memfds ps m blob) = numDefined m := by
    unfold build_memfds
    rw [List.length_map, List.length_range]
  constructor
  · exact hlen
  · intro i
    unfold get_memory_image
    rw [List.get?_eq_getElem?]
    constructor
    · intro hsome
      by_contra hge
      rw [List.getElem?_eq_none (by rw [hlen]; unfold numDefined; omega)] at hsome
      cases hsome
    · intro hlt
      have hi : i < List.length (build_memfds ps m blob) := by
        rw [hlen]; unfold numDefined; omega
      rw [List.getElem?_eq_getElem hi]
      rfl

/-- Witness for C10 at a concrete input. -/
theorem c10_entry_count_witness :
    List.length (build_memfds 4096 exM1 []) =
      exM1.memory_plans.length - exM1.num_imported_memories ∧
    ∀ i, (get_memory_image (build_memfds 4096 exM1 []) i).isSome = true ↔
      i < exM1.memory_plans.length - exM1.num_imported_memories :=
  c10_entry_count 4096 exM1 [] (by decide)

/-! ### C6 -/

/-- C6: under any interleaving of get_or_create steps starting from threads that
have not yet begun, registry entries persist unchanged once stored (entries are
only inserted into a vacant slot and never replaced), and every thread that
completed successfully returned exactly the image set stored at its id - so at
most one image set is ever observable per CompiledModuleId. -/
theorem c6_registry_at_most_one (s0 s : SysState) (h : RegReach s0 s)
    (h0 : ∀ t ∈ s0.threads, t.phase = Phase.start) :
    (∀ i v, s0.map i = some v → s.map i = some v) ∧ DoneCoherent s := by
  refine ⟨fun i v hv => regReach_mono s0 s h i v hv, regReach_coherent s0 s h ?_⟩
  intro t ht v hph
  rw [h0 t ht] at hph
  cases hph

/-- A one-thread initial state about to run get_or_create on a cold registry. -/
def exSys : SysState :=
  ⟨fun _ => none, [⟨0, .ok (build_memfds 4096 exM5 exBlob5), .start⟩]⟩

/-- Witness for C6 at a concrete input. -/
theorem c6_registry_at_most_one_witness :
    (∀ i v, exSys.map i = some v → exSys.map i = some v) ∧ DoneCoherent exSys :=
  c6_registry_at_most_one exSys exSys (RegReach.refl exSys)
    (by
      intro t ht
      simp only [exSys, List.mem_singleton] at ht
      rw [ht])

/-! ### C7 -/

/-- C7: when the registry has no entry for the id and the builder fails,
get_or_create returns that error and the registry map is returned unchanged -
nothing is inserted and no partial image set becomes reachable. -/
theorem c7_builder_failure (reg : MemFdRegistry) (i : Nat) (e : Unit)
    (hmiss : reg i = none) :
    get_or_create reg i (.error e) = (.error e, reg) := by
  unfold get_or_create
  rw [hmiss]

/-- Witness for C7 at a concrete input. -/
theorem c7_builder_failure_witness :
    get_or_create (fun _ => none) 0 (.error ()) = (.error (), fun _ => none) :=
  c7_builder_failure (fun _ => none) 0 () rfl

/-! ### C8 -/

/-- C8: after any successful get_or_create for an id, a second sequential call
with the same id yields exactly the same image set and leaves the registry
unchanged, and does so regardless of the builder outcome it is given - the cached
entry is returned from the first lookup and no build work is consulted. -/
theorem c8_idempotent (reg : MemFdRegistry) (i : Nat) (v res : ModuleMemFds)
    (reg2 : MemFdRegistry) (h : get_or_create reg i (.ok v) = (.ok res, reg2)) :
    ∀ bres, get_or_create reg2 i bres = (.ok res, reg2) := by
  have hstore : reg2 i = some res := by
    unfold get_or_create at h
    cases hreg : reg i with
    | some w =>
      rw [hreg] at h
      rw [Prod.mk.injEq] at h
      obtain ⟨h1, h2⟩ := h
      injection h1 with h1
      rw [← h2, hreg, h1]
    | none =>
      rw [hreg] at h
      rw [Prod.mk.injEq] at h
      obtain ⟨h1, h2⟩ := h
      injection h1 with h1
      rw [← h2, ← h1]
      simp
  intro bres
  unfold get_or_create
  rw [hstore]

/-- The registry after the example first call: the built set stored at id 0. -/
def exReg2 : MemFdRegistry :=
  fun j => if j = 0 then some (build_memfds 4096 exM5 exBlob5) else none

/-- Witness for C8 at a concrete input: even a failing builder outcome is ignored
by the second call, which returns the cached set. -/
theorem c8_idempotent_witness :
    get_or_create exReg2 0 (.error ()) =
      (.ok (build_memfds 4096 exM5 exBlob5), exReg2) :=
  c8_idempotent (fun _ => none) 0 (build_memfds 4096 exM5 exBlob5)
    (build_memfds 4096 exM5 exBlob5) exReg2 rfl (.error ())
